import Mathlib

/-!
Verification of the resume-matcher skill-matching and scoring engine.

Shallow embedding of `PycharmProjects/ResumeUpload/main.py` (a Streamlit
resume-matching app).  Python strings are modelled as `List Char`; Python's
`str.lower` is modelled per character with `Char.toLower`, `\d` / `\w` /
`\s` regex character classes are modelled with their ASCII meanings
(`Char.isDigit`, alphanumeric-or-underscore, the ASCII whitespace set),
which agree with Python on the ASCII inputs this program works with.
Python `set` values are modelled as deduplicated lowered lists; Python's
set iteration order is unspecified, so the embedding fixes first-occurrence
order, which is immaterial for the set-level properties proved below.
All functions are pure, mirroring the source functions, which perform no
mutation (the result dicts are fresh `{**job, ...}` copies).
-/

/-- A Python string, modelled as its list of characters. -/
abbrev Str := List Char

/-- Python's `str.lower()`, modelled per character. -/
def lowerS (s : Str) : Str := s.map Char.toLower

/-- Does `needle` occur at the start of `hay`?  (Helper for substring search.) -/
def strStartsWith : Str → Str → Bool
  | _, [] => true
  | [], _ :: _ => false
  | c :: cs, d :: ds => c == d && strStartsWith cs ds

/-- Python's `needle in hay` substring containment test. -/
def strContains : Str → Str → Bool
  | [], needle => needle.isEmpty
  | c :: cs, needle => strStartsWith (c :: cs) needle || strContains cs needle

/-- Python's `re.search(r"\d", s)` as a Boolean: does `s` contain a digit? -/
def hasDigit (s : Str) : Bool := s.any Char.isDigit

/-- Python's ASCII whitespace set used by `str.split()` / `str.strip()`. -/
def pyIsSpace (c : Char) : Bool :=
  c == ' ' || c == '\t' || c == '\n' || c == '\x0d' || c == '\x0b' || c == '\x0c'

/-- Python's `str.strip()`: drop leading and trailing whitespace. -/
def pyStrip (s : Str) : Str :=
  ((s.dropWhile pyIsSpace).reverse.dropWhile pyIsSpace).reverse

/-- Helper for `str.split()`: accumulates the current word (reversed). -/
def splitWSAux : Str → Str → List Str
  | cur, [] => if cur.isEmpty then [] else [cur.reverse]
  | cur, c :: cs =>
    if pyIsSpace c then
      if cur.isEmpty then splitWSAux [] cs else cur.reverse :: splitWSAux [] cs
    else splitWSAux (c :: cur) cs

/-- Python's `s.split()` with no argument: split on whitespace runs, dropping
empty pieces. -/
def splitWS (s : Str) : List Str := splitWSAux [] s

/-- A regex word character (`\w`), in its ASCII meaning. -/
def wordChar (c : Char) : Bool := c.isAlphanum || c == '_'

/-- The fixed skill vocabulary `SKILLS` from `main.py`. -/
def SKILLS : List Str :=
  ["Python".toList, "SQL".toList, "Tableau".toList, "Power BI".toList,
   "Excel".toList, "R".toList, "Machine Learning".toList, "Spark".toList,
   "Redshift".toList, "Azure".toList, "BigQuery".toList, "Snowflake".toList,
   "D3.js".toList, "JavaScript".toList]

/-- The function `extract_skills(text)` from `main.py`:
`[s for s in SKILLS if s.lower() in text.lower()]`. -/
def extract_skills (text : Str) : List Str :=
  SKILLS.filter (fun s => strContains (lowerS text) (lowerS s))

/-- A record of the static job feed (`static_job_feed.json`): each job dict
has the fields `title`, `company`, `location`, `url` and `skills`. -/
structure JobPosting where
  title : Str
  company : Str
  location : Str
  url : Str
  skills : List Str
deriving DecidableEq, Repr

/-- A result dict built by `get_top_matches_with_feedback`: the spread
`{**job, ...}` keeps every job field and adds the four match fields. -/
structure MatchResult where
  title : Str
  company : Str
  location : Str
  url : Str
  skills : List Str
  match_score : Nat
  matched_skills : List Str
  missing_skills : List Str
  suggestions : List Str
deriving DecidableEq, Repr

/-- The suggestion string built for one missing skill in
`suggest_resume_improvements`. -/
def suggestionText (skill : Str) : Str :=
  "💡 _Consider adding a bullet point or project showing experience with **".toList
    ++ skill ++ "**._".toList

/-- The function `suggest_resume_improvements(missing_skills)` from `main.py`: one
templated string per missing skill, in order. -/
def suggest_resume_improvements (missing_skills : List Str) : List Str :=
  missing_skills.map suggestionText

/-- Python's `set(s.lower() for s in l)`: a Python set of lowered strings, modelled as
a deduplicated list (Python's set iteration order is unspecified; the model
fixes one order, which only matters up to set equality). -/
def lowerSet (l : List Str) : List Str := (l.map lowerS).dedup

/-- The body of the `for job in job_feed` loop of
`get_top_matches_with_feedback`: builds one result dict from one job.
`matched = resume_set & job_set`, `missing = list(job_set - resume_set)`,
`match_score = len(matched)`, and suggestions truncated to 2 unless
`pro_user`. -/
def mkResult (resume_set : List Str) (pro_user : Bool) (job : JobPosting) :
    MatchResult :=
  let job_set := lowerSet job.skills
  let matched := job_set.filter (fun s => decide (s ∈ resume_set))
  let missing := job_set.filter (fun s => !decide (s ∈ resume_set))
  let all_suggestions := suggest_resume_improvements missing
  { title := job.title
    company := job.company
    location := job.location
    url := job.url
    skills := job.skills
    match_score := matched.length
    matched_skills := matched
    missing_skills := missing
    suggestions := if pro_user then all_suggestions else all_suggestions.take 2 }

/-- The comparison used by `sorted(results, key=lambda x: x["match_score"],
reverse=True)`: descending by score.  Python's `sorted` is stable, as is
`List.mergeSort`. -/
def scoreDescLe (a b : MatchResult) : Bool :=
  decide (b.match_score ≤ a.match_score)

/-- The function `get_top_matches_with_feedback(resume_skills, job_feed, pro_user, top_n)`
from `main.py` (defaults in the source: `pro_user=False`, `top_n=5`). -/
def get_top_matches_with_feedback (resume_skills : List Str)
    (job_feed : List JobPosting) (pro_user : Bool) (top_n : Nat) :
    List MatchResult :=
  let resume_set := lowerSet resume_skills
  let results := job_feed.map (mkResult resume_set pro_user)
  (results.mergeSort scoreDescLe).take top_n

/-- The resume-strength formula from the UI code of `main.py`:
`feedback_score = max(0, 15 - len(feedback))`;
`total_score = min(100, int(skill_score * 3 + feedback_score * 5))`.
Python ints are modelled as `Int` (so `15 - flagged` can go negative before
the `max`). -/
def total_score (skill_count flagged_bullet_count : Int) : Int :=
  min 100 (skill_count * 3 + max 0 (15 - flagged_bullet_count) * 5)

/-- The list `WEAK_VERBS` from `main.py`. -/
def WEAK_VERBS : List Str :=
  ["helped".toList, "worked on".toList, "assisted".toList,
   "involved in".toList, "supported".toList, "participated".toList]

/-- The test `any(verb in b.lower() for verb in WEAK_VERBS)`. -/
def hasWeakVerb (b : Str) : Bool :=
  WEAK_VERBS.any (fun v => strContains (lowerS b) v)

/-- Word boundary `\b` on the left of position `i` in `s`, for a pattern
whose first character is a word character: holds iff `i` is the start of the
string or the previous character is not a word character. -/
def boundaryBeforeAt (s : Str) (i : Nat) : Bool :=
  i == 0 || !wordChar (s.getD (i - 1) ' ')

/-- Word boundary `\b` at end position `i` in `s`, for a pattern whose last
character is a word character: holds iff `i` is the end of the string or the
character at `i` is not a word character. -/
def boundaryAfterAt (s : Str) (i : Nat) : Bool :=
  decide (s.length ≤ i) || !wordChar (s.getD i ' ')

/-- A `re`-style match of the literal phrase `p` (word characters and spaces)
bracketed by `\b` on both sides, anchored at position `i` of `s`. -/
def phraseAt (s p : Str) (i : Nat) : Bool :=
  ((s.drop i).take p.length == p) && boundaryBeforeAt s i
    && boundaryAfterAt s (i + p.length)

/-- The search `re.search(r"\b" + p + r"\b", s)` for a literal phrase `p`. -/
def phraseSearch (s p : Str) : Bool :=
  (List.range (s.length + 1)).any (fun i => phraseAt s p i)

/-- The search `re.search(r"\bwas\b.*\bby\b", s)`: a whole word `was`, then any
characters other than a newline (`.` does not match `\n`), then a whole word
`by`. -/
def wasDotStarBy (s : Str) : Bool :=
  (List.range (s.length + 1)).any (fun i =>
    phraseAt s "was".toList i &&
      (List.range (s.length + 1)).any (fun j =>
        decide (i + 3 ≤ j) && phraseAt s "by".toList j &&
          (List.range' (i + 3) (j - (i + 3))).all
            (fun k => !(s.getD k ' ' == '\n'))))

/-- The test `any(re.search(pat, b.lower()) for pat in PASSIVE_PATTERNS)` with the
four patterns of `PASSIVE_PATTERNS` in `main.py`. -/
def hasPassive (b : Str) : Bool :=
  wasDotStarBy (lowerS b) || phraseSearch (lowerS b) "was responsible for".toList
    || phraseSearch (lowerS b) "was tasked with".toList
    || phraseSearch (lowerS b) "were involved in".toList

/-- The test `len(b.split()) < 5`. -/
def tooShort (b : Str) : Bool := decide ((splitWS b).length < 5)

/-- The feedback string accumulated for one bullet inside `analyze_bullets`
(each condition appends one line to `s`). -/
def bulletTips (b : Str) : Str :=
  (if hasWeakVerb b then "⚠️ Try using a stronger verb.\n".toList else [])
    ++ (if !hasDigit b then
          "📏 Add metrics or results (e.g. 'increased efficiency by 20%').\n".toList
        else [])
    ++ (if tooShort b then "✏️ Expand with more detail.\n".toList else [])
    ++ (if hasPassive b then
          "🔁 Consider rephrasing into active voice.\n".toList
        else [])

/-- The function `analyze_bullets(bullets)` from `main.py`: appends `(b, s.strip())` for
each bullet whose accumulated feedback `s` is non-empty. -/
def analyze_bullets (bullets : List Str) : List (Str × Str) :=
  bullets.filterMap (fun b =>
    let s := bulletTips b
    if s.isEmpty then none else some (b, pyStrip s))

/-- The mapping `REWRITE_MAP` from `main.py`, in dict insertion order (Python dicts
iterate in insertion order, which is the order `rewrite_bullet` applies the
substitutions in). -/
def REWRITE_MAP : List (Str × Str) :=
  [("helped".toList, "contributed to".toList),
   ("worked on".toList, "executed".toList),
   ("assisted".toList, "supported delivery of".toList),
   ("involved in".toList, "participated in executing".toList),
   ("supported".toList, "enabled".toList),
   ("participated".toList, "collaborated on".toList)]

/-- Case-insensitive test that the lowercase pattern `w` starts `s`. -/
def ciPrefixAt (w s : Str) : Bool := (s.take w.length).map Char.toLower == w

/-- Left-boundary test for `\b` given the character preceding the scan
position (`none` at the start of the string). -/
def boundaryPrev : Option Char → Bool
  | none => true
  | some p => !wordChar p

/-- Right-boundary test for `\b` given the rest of the string after a match. -/
def boundaryNext : Str → Bool
  | [] => true
  | d :: _ => !wordChar d

/-- The scan underlying `re.sub(rf"\b{weak}\b", strong, s, flags=IGNORECASE)`
for a lowercase word-character-delimited phrase `weak`: left-to-right,
leftmost non-overlapping matches, replacement text not rescanned, matching
resumes after the match. `prev` is the character before the scan position.
The `fuel` argument only makes the recursion structural; every step consumes
at least one character, so `fuel = s.length` never runs out. -/
def subWordAux (weak strong : Str) : Nat → Option Char → Str → Str
  | 0, _, s => s
  | _ + 1, _, [] => []
  | fuel + 1, prev, c :: cs =>
    if boundaryPrev prev && ciPrefixAt weak (c :: cs)
        && boundaryNext (List.drop weak.length (c :: cs)) then
      strong ++ subWordAux weak strong fuel (some (weak.getLastD c))
        (List.drop (weak.length - 1) cs)
    else
      c :: subWordAux weak strong fuel (some c) cs

/-- The call `re.sub(rf"\b{weak}\b", strong, s, flags=re.IGNORECASE)`. -/
def reSubWord (weak strong s : Str) : Str :=
  subWordAux weak strong s.length none s

/-- The substitution loop of `rewrite_bullet`: the six `re.sub` calls
applied sequentially in `REWRITE_MAP` (insertion) order, each over the
output of the previous one. -/
def applyRewrites (bullet : Str) : Str :=
  REWRITE_MAP.foldl (fun r p => reSubWord p.1 p.2 r) bullet

/-- The function `rewrite_bullet(bullet)` from `main.py`: the six substitutions applied
sequentially in `REWRITE_MAP` order, then the `(add metric)` marker if no
digit remains, then the `(expand with detail)` marker if fewer than five
tokens remain (counted after the metric marker was possibly appended), then
`strip()`. -/
def rewrite_bullet (bullet : Str) : Str :=
  let r1 := applyRewrites bullet
  let r2 := if hasDigit r1 then r1 else r1 ++ " (add metric)".toList
  let r3 := if (splitWS r2).length < 5 then r2 ++ " (expand with detail)".toList
    else r2
  pyStrip r3

/-- The function `generate_rewritten_bullets(bullets)` from `main.py`: offers a rewrite
for each bullet with a weak verb, no digit, or fewer than five tokens (the
passive-voice condition of `analyze_bullets` is not checked here). -/
def generate_rewritten_bullets (bullets : List Str) : List (Str × Str) :=
  bullets.filterMap (fun b =>
    if hasWeakVerb b || !hasDigit b || tooShort b then
      some (b, rewrite_bullet b)
    else none)

/-- Python's `s.endswith(suffix)`. -/
def pyEndsWith (s suffix : Str) : Bool := suffix.isSuffixOf s

/-- The function `extract_text(file)` from `main.py`.  The external extraction libraries
(`fitz` for PDF, `python-docx` for DOCX) are modelled as oracle parameters
`pdfText` / `docxText` holding the text they would return; the function
dispatches on the file name's extension and returns `""` for any other
extension. -/
def extract_text (name : Str) (pdfText docxText : Str) : Str :=
  if pyEndsWith name ".pdf".toList then pdfText
  else if pyEndsWith name ".docx".toList then docxText
  else []

/-- Python's `str.splitlines()` (the ASCII line breaks `\n`, `\r`, `\r\n`,
`\v`, `\f`); `"".splitlines() == []` and no trailing empty line is produced
for a trailing line break. -/
def pySplitlinesAux : Str → Str → List Str
  | cur, [] => if cur.isEmpty then [] else [cur.reverse]
  | cur, '\x0d' :: '\n' :: cs => cur.reverse :: pySplitlinesAux [] cs
  | cur, c :: cs =>
    if c == '\n' || c == '\x0d' || c == '\x0b' || c == '\x0c' then
      cur.reverse :: pySplitlinesAux [] cs
    else
      pySplitlinesAux (c :: cur) cs

/-- The call `text.splitlines()`. -/
def pySplitlines (s : Str) : List Str := pySplitlinesAux [] s

/-- The bullet marker class `[-•●*]` of `extract_bullet_points`. -/
def BULLET_MARKS : List Char := ['-', '•', '●', '*']

/-- The match `re.match(r"^[-•●*]\s+", t)`: a marker character followed by at least
one whitespace character, at the start of the line. -/
def startsBulletMark : Str → Bool
  | c :: d :: _ => BULLET_MARKS.contains c && pyIsSpace d
  | _ => false

/-- The line filter of `extract_bullet_points`, applied to the stripped
line: `re.match(r"^[-•●*]\s+", t) or t.startswith("•")`. -/
def isBulletLine (t : Str) : Bool := startsBulletMark t || strStartsWith t ['•']

/-- The function `extract_bullet_points(text)` from `main.py`: stripped bullet lines, in
document order, capped at the first 15. -/
def extract_bullet_points (text : Str) : List Str :=
  ((pySplitlines text).filterMap (fun line =>
    let t := pyStrip line
    if isBulletLine t then some t else none)).take 15

/-- Modelled from the spec (§4.4), for comparison with the source's
`rewrite_bullet`: "substitutes each weak-verb phrase (whole-word match) with
a fixed stronger replacement from a one-to-one mapping" read as a single
simultaneous left-to-right pass (replacement text never rescanned by other
rules), with the detail marker appended "if fewer than 5 tokens remain"
after the substitutions.  Fuel as in `subWordAux`. -/
def specSubAllAux : Nat → Option Char → Str → Str
  | 0, _, s => s
  | _ + 1, _, [] => []
  | fuel + 1, prev, c :: cs =>
    match REWRITE_MAP.find? (fun p => boundaryPrev prev && ciPrefixAt p.1 (c :: cs)
        && boundaryNext (List.drop p.1.length (c :: cs))) with
    | some p => p.2 ++ specSubAllAux fuel (some (p.1.getLastD c))
        (List.drop (p.1.length - 1) cs)
    | none => c :: specSubAllAux fuel (some c) cs

/-- Modelled from the spec (§4.4): the rewrite contract as the spec words
it — one-to-one simultaneous substitution, then the metric marker if no
digit is present after substitution, then the detail marker if fewer than
five tokens remain after the substitutions. -/
def rewrite_bullet_spec (bullet : Str) : Str :=
  let r1 := specSubAllAux bullet.length none bullet
  let r2 := if hasDigit r1 then r1 else r1 ++ " (add metric)".toList
  if decide ((splitWS r1).length < 5) then r2 ++ " (expand with detail)".toList
  else r2

/-- The intermediate result list of `get_top_matches_with_feedback` before
sorting and truncation, in catalog order. -/
def matchResults (R : List Str) (pro : Bool) (feed : List JobPosting) :
    List MatchResult :=
  feed.map (mkResult (lowerSet R) pro)

/-- A sample posting used for concrete witnesses. -/
def jobA : JobPosting :=
  { title := "Data Analyst".toList, company := "Acme".toList,
    location := "Remote".toList, url := "https://example.com/a".toList,
    skills := ["python".toList, "sql".toList] }

/-- A second sample posting (same required skills as `jobA`, so the two tie
on every resume). -/
def jobB : JobPosting :=
  { title := "BI Analyst".toList, company := "Globex".toList,
    location := "On-site".toList, url := "https://example.com/b".toList,
    skills := ["python".toList, "sql".toList] }

theorem strStartsWith_iff (hay needle : Str) :
    strStartsWith hay needle = true ↔ needle <+: hay := by
  induction hay generalizing needle with
  | nil =>
    cases needle with
    | nil => simp [strStartsWith]
    | cons d ds => simp [strStartsWith]
  | cons c cs ih =>
    cases needle with
    | nil => simp [strStartsWith]
    | cons d ds =>
      simp only [strStartsWith, Bool.and_eq_true, beq_iff_eq, ih,
        List.cons_prefix_cons]
      exact ⟨fun ⟨h1, h2⟩ => ⟨h1.symm, h2⟩, fun ⟨h1, h2⟩ => ⟨h1.symm, h2⟩⟩

theorem strContains_iff (hay needle : Str) :
    strContains hay needle = true ↔ needle <:+: hay := by
  induction hay with
  | nil =>
    simp only [strContains, List.isEmpty_iff]
    constructor
    · rintro rfl; exact List.nil_prefix.isInfix
    · intro h; exact List.eq_nil_of_infix_nil h
  | cons c cs ih =>
    simp only [strContains, Bool.or_eq_true, strStartsWith_iff, ih]
    exact (List.infix_cons_iff).symm

theorem mem_lowerSet {s : Str} {l : List Str} :
    s ∈ lowerSet l ↔ s ∈ l.map lowerS := List.mem_dedup

theorem SKILLS_nodup : SKILLS.Nodup := by decide

/-- Claim C2: `extract_skills` returns exactly those entries of `SKILLS` whose
lower-cased form is a substring of the lower-cased input text, in vocabulary
order (a sublist of `SKILLS`), each entry at most once, and the empty input
yields the empty sequence.  (The function is a pure function of its input by
construction.) -/
theorem extract_skills_spec (text : Str) :
    (∀ s : Str, s ∈ extract_skills text ↔ s ∈ SKILLS ∧ lowerS s <:+: lowerS text)
  ∧ (extract_skills text).Sublist SKILLS
  ∧ (extract_skills text).Nodup
  ∧ extract_skills [] = [] := by
  refine ⟨fun s => ?_, List.filter_sublist _, SKILLS_nodup.filter _, by decide⟩
  simp [extract_skills, List.mem_filter, strContains_iff]

/-- Claim C5: the resume strength score is exactly
`min(100, skill_count*3 + max(0, 15 - flagged_bullet_count)*5)`, always lies
in `[0, 100]` for non-negative inputs, and `total_score 5 2 = 80`. -/
theorem total_score_spec (skill_count flagged_bullet_count : Int)
    (hs : 0 ≤ skill_count) (hf : 0 ≤ flagged_bullet_count) :
    total_score skill_count flagged_bullet_count
      = min 100 (skill_count * 3 + max 0 (15 - flagged_bullet_count) * 5)
  ∧ 0 ≤ total_score skill_count flagged_bullet_count
  ∧ total_score skill_count flagged_bullet_count ≤ 100
  ∧ total_score 5 2 = 80 := by
  refine ⟨rfl, ?_, ?_, by decide⟩ <;> simp only [total_score] <;> omega

/-- Concrete instance of `total_score_spec` at `skill_count = 5`,
`flagged_bullet_count = 2`. -/
theorem total_score_spec_witness :
    (0 : Int) ≤ 5 ∧ (0 : Int) ≤ 2 ∧ 0 ≤ total_score 5 2
  ∧ total_score 5 2 ≤ 100 ∧ total_score 5 2 = 80 := by
  have h := total_score_spec 5 2 (by decide) (by decide)
  exact ⟨by decide, by decide, h.2.1, h.2.2.1, h.2.2.2⟩

theorem mem_top_matches {R : List Str} {feed : List JobPosting} {pro : Bool}
    {n : Nat} {e : MatchResult}
    (he : e ∈ get_top_matches_with_feedback R feed pro n) :
    ∃ job, job ∈ feed ∧ e = mkResult (lowerSet R) pro job := by
  simp only [get_top_matches_with_feedback] at he
  have h1 := List.mem_of_mem_take he
  rw [List.mem_mergeSort] at h1
  obtain ⟨job, hj, rfl⟩ := List.mem_map.mp h1
  exact ⟨job, hj, rfl⟩

theorem mkResult_matched_mem (rs : List Str) (pro : Bool) (job : JobPosting)
    (s : Str) :
    s ∈ (mkResult rs pro job).matched_skills ↔
      s ∈ job.skills.map lowerS ∧ s ∈ rs := by
  simp [mkResult, lowerSet, List.mem_filter]

theorem mkResult_missing_mem (rs : List Str) (pro : Bool) (job : JobPosting)
    (s : Str) :
    s ∈ (mkResult rs pro job).missing_skills ↔
      s ∈ job.skills.map lowerS ∧ ¬ s ∈ rs := by
  simp [mkResult, lowerSet, List.mem_filter]

theorem mkResult_matched_nodup (rs : List Str) (pro : Bool) (job : JobPosting) :
    (mkResult rs pro job).matched_skills.Nodup :=
  (List.nodup_dedup _).filter _

theorem mkResult_missing_nodup (rs : List Str) (pro : Bool) (job : JobPosting) :
    (mkResult rs pro job).missing_skills.Nodup :=
  (List.nodup_dedup _).filter _

/-- Claim C1: every entry returned by `get_top_matches_with_feedback` satisfies
the `MatchResult` invariants: `matched_skills` is the case-insensitive
intersection of the resume skills and the posting's required skills (the
entry's retained `skills` field), `missing_skills` is the case-insensitive
difference, `match_score` is the cardinality of `matched_skills` (a
duplicate-free list), the two lists are disjoint, and their union is the
posting's required-skill list as a case-insensitively deduplicated set. -/
theorem top_matches_invariants (R : List Str) (feed : List JobPosting)
    (pro : Bool) (n : Nat) (e : MatchResult)
    (he : e ∈ get_top_matches_with_feedback R feed pro n) :
    (∀ s : Str, s ∈ e.matched_skills ↔ s ∈ e.skills.map lowerS ∧ s ∈ R.map lowerS)
  ∧ (∀ s : Str, s ∈ e.missing_skills ↔ s ∈ e.skills.map lowerS ∧ ¬ s ∈ R.map lowerS)
  ∧ e.match_score = e.matched_skills.length
  ∧ e.matched_skills.Nodup
  ∧ e.missing_skills.Nodup
  ∧ (∀ s : Str, ¬ (s ∈ e.matched_skills ∧ s ∈ e.missing_skills))
  ∧ (∀ s : Str, (s ∈ e.matched_skills ∨ s ∈ e.missing_skills) ↔
        s ∈ e.skills.map lowerS) := by
  obtain ⟨job, hj, rfl⟩ := mem_top_matches he
  refine ⟨fun s => ?_, fun s => ?_, rfl, mkResult_matched_nodup _ _ _,
    mkResult_missing_nodup _ _ _, fun s hs => ?_, fun s => ?_⟩
  · rw [mkResult_matched_mem, mem_lowerSet]; exact Iff.rfl
  · rw [mkResult_missing_mem, mem_lowerSet]; exact Iff.rfl
  · obtain ⟨h1, h2⟩ := hs
    exact ((mkResult_missing_mem _ _ _ _).mp h2).2 ((mkResult_matched_mem _ _ _ _).mp h1).2
  · constructor
    · rintro (h | h)
      · exact ((mkResult_matched_mem _ _ _ _).mp h).1
      · exact ((mkResult_missing_mem _ _ _ _).mp h).1
    · intro h
      by_cases hm : s ∈ lowerSet R
      · exact Or.inl ((mkResult_matched_mem _ _ _ _).mpr ⟨h, hm⟩)
      · exact Or.inr ((mkResult_missing_mem _ _ _ _).mpr ⟨h, hm⟩)

/-- Concrete instance of `top_matches_invariants`: resume skills
`["Python"]` against the one-job catalog `[jobA]`. -/
theorem top_matches_invariants_witness :
    (mkResult (lowerSet ["Python".toList]) false jobA).match_score
      = (mkResult (lowerSet ["Python".toList]) false jobA).matched_skills.length
  ∧ "python".toList ∈ (mkResult (lowerSet ["Python".toList]) false jobA).matched_skills := by
  have h := top_matches_invariants ["Python".toList] [jobA] false 5
    (mkResult (lowerSet ["Python".toList]) false jobA)
    (by simp [get_top_matches_with_feedback])
  exact ⟨h.2.2.1, (h.1 _).mpr ⟨by decide, by decide⟩⟩

/-- Claim C10: every entry returned by `get_top_matches_with_feedback` comes
from a posting of the input catalog and retains that posting's `title`,
`company`, `location`, `url` and `skills` fields unchanged — the entry is
exactly the posting's data plus the four added match fields.  In this pure
model, the input catalog and its postings are not mutated by construction:
the source builds each entry as a fresh `{**job, ...}` dict and never
assigns into `job_feed` or its elements. -/
theorem top_matches_preserve_fields (R : List Str) (feed : List JobPosting)
    (pro : Bool) (n : Nat) (e : MatchResult)
    (he : e ∈ get_top_matches_with_feedback R feed pro n) :
    ∃ job, job ∈ feed ∧ e = mkResult (lowerSet R) pro job
      ∧ e.title = job.title ∧ e.company = job.company
      ∧ e.location = job.location ∧ e.url = job.url ∧ e.skills = job.skills := by
  obtain ⟨job, hj, rfl⟩ := mem_top_matches he
  exact ⟨job, hj, rfl, rfl, rfl, rfl, rfl, rfl⟩

/-- Concrete instance of `top_matches_preserve_fields` on the one-job
catalog `[jobA]`. -/
theorem top_matches_preserve_fields_witness :
    ∃ job, job ∈ [jobA]
      ∧ mkResult (lowerSet ["Python".toList]) false jobA
          = mkResult (lowerSet ["Python".toList]) false job
      ∧ (mkResult (lowerSet ["Python".toList]) false jobA).title = job.title
      ∧ (mkResult (lowerSet ["Python".toList]) false jobA).company = job.company
      ∧ (mkResult (lowerSet ["Python".toList]) false jobA).location = job.location
      ∧ (mkResult (lowerSet ["Python".toList]) false jobA).url = job.url
      ∧ (mkResult (lowerSet ["Python".toList]) false jobA).skills = job.skills :=
  top_matches_preserve_fields ["Python".toList] [jobA] false 5 _
    (by simp [get_top_matches_with_feedback])

/-- Claim C4: each returned entry carries one templated suggestion string per
missing skill, in the order of `missing_skills`, each containing (naming)
that skill; with `pro = false` the list is truncated to its first 2 entries
(length `min 2 |missing|`), with `pro = true` nothing is truncated (length
`|missing|`). -/
theorem suggestions_truncation (R : List Str) (feed : List JobPosting)
    (pro : Bool) (n : Nat) (e : MatchResult)
    (he : e ∈ get_top_matches_with_feedback R feed pro n) :
    e.suggestions = (if pro then e.missing_skills.map suggestionText
                     else (e.missing_skills.map suggestionText).take 2)
  ∧ e.suggestions.length = (if pro then e.missing_skills.length
                            else min 2 e.missing_skills.length)
  ∧ (∀ m : List Str, (suggest_resume_improvements m).length = m.length)
  ∧ (∀ sk : Str, sk <:+: suggestionText sk) := by
  obtain ⟨job, hj, rfl⟩ := mem_top_matches he
  refine ⟨?_, ?_, fun m => List.length_map _ _, fun sk =>
    ⟨"💡 _Consider adding a bullet point or project showing experience with **".toList,
     "**._".toList, rfl⟩⟩
  · cases pro <;> rfl
  · cases pro <;>
      simp [mkResult, suggest_resume_improvements, List.length_take]

/-- Concrete instance of `suggestions_truncation`: free tier on the
single-job catalog `[jobA]`. -/
theorem suggestions_truncation_witness :
    (mkResult (lowerSet ["Python".toList]) false jobA).suggestions.length
      = min 2 (mkResult (lowerSet ["Python".toList]) false jobA).missing_skills.length := by
  have h := suggestions_truncation ["Python".toList] [jobA] false 5
    (mkResult (lowerSet ["Python".toList]) false jobA)
    (by simp [get_top_matches_with_feedback])
  have h2 := h.2.1
  rwa [if_neg (by decide : ¬ (false = true))] at h2

theorem scoreDescLe_trans (a b c : MatchResult) :
    scoreDescLe a b → scoreDescLe b c → scoreDescLe a c := by
  simp only [scoreDescLe, decide_eq_true_eq]
  omega

theorem scoreDescLe_total (a b : MatchResult) :
    scoreDescLe a b || scoreDescLe b a := by
  simp only [scoreDescLe, Bool.or_eq_true, decide_eq_true_eq]
  omega

theorem mkResult_empty_score (pro : Bool) (job : JobPosting) :
    (mkResult (lowerSet []) pro job).match_score = 0
  ∧ (mkResult (lowerSet []) pro job).matched_skills = [] := by
  constructor <;> simp [mkResult, lowerSet]

/-- Claim C3: the returned sequence is sorted by `match_score` descending;
two results with equal score keep, in the stably sorted sequence, the
relative order of their source postings (the order of `matchResults`, which
is catalog order); the output is the first `top_n` of the stably sorted
result list; and with an empty resume skill set every score is 0 and the
output is the catalog-order result list truncated to `top_n`. -/
theorem ranking_sorted_stable (R : List Str) (feed : List JobPosting)
    (pro : Bool) (n : Nat) :
    (get_top_matches_with_feedback R feed pro n).Pairwise
        (fun a b => b.match_score ≤ a.match_score)
  ∧ (∀ a b : MatchResult, a.match_score = b.match_score →
        ([a, b]).Sublist (matchResults R pro feed) →
        ([a, b]).Sublist ((matchResults R pro feed).mergeSort scoreDescLe))
  ∧ get_top_matches_with_feedback R feed pro n
      = ((matchResults R pro feed).mergeSort scoreDescLe).take n
  ∧ (R = [] →
      (∀ e ∈ get_top_matches_with_feedback R feed pro n, e.match_score = 0)
      ∧ get_top_matches_with_feedback R feed pro n
          = (matchResults R pro feed).take n) := by
  refine ⟨?_, ?_, rfl, ?_⟩
  · have hs := List.sorted_mergeSort scoreDescLe_trans scoreDescLe_total
      (matchResults R pro feed)
    have hs2 := hs.imp (fun h => by
      simpa only [scoreDescLe, decide_eq_true_eq] using h)
    exact hs2.sublist (List.take_sublist _ _)
  · intro a b hab hsub
    exact List.pair_sublist_mergeSort scoreDescLe_trans scoreDescLe_total
      (by simp [scoreDescLe, hab]) hsub
  · rintro rfl
    have hp : (matchResults [] pro feed).Pairwise
        (fun a b => scoreDescLe a b = true) := by
      apply List.pairwise_of_forall_mem_list
      intro a ha b hb
      obtain ⟨ja, hja, rfl⟩ := List.mem_map.mp ha
      obtain ⟨jb, hjb, rfl⟩ := List.mem_map.mp hb
      simp [scoreDescLe, (mkResult_empty_score pro ja).1,
        (mkResult_empty_score pro jb).1]
    have hsorted : (matchResults [] pro feed).mergeSort scoreDescLe
        = matchResults [] pro feed := List.mergeSort_of_sorted hp
    constructor
    · intro e he
      obtain ⟨job, hj, rfl⟩ := mem_top_matches he
      exact (mkResult_empty_score pro job).1
    · show ((matchResults [] pro feed).mergeSort scoreDescLe).take n = _
      rw [hsorted]

/-- Concrete instance of `ranking_sorted_stable`: two tied postings with an
empty resume keep catalog order in the sorted result list, and the output is
the catalog-order results. -/
theorem ranking_sorted_stable_witness :
    ([mkResult (lowerSet []) false jobA,
      mkResult (lowerSet []) false jobB]).Sublist
      ((matchResults [] false [jobA, jobB]).mergeSort scoreDescLe)
  ∧ get_top_matches_with_feedback [] [jobA, jobB] false 5
      = (matchResults [] false [jobA, jobB]).take 5 := by
  have h := ranking_sorted_stable [] [jobA, jobB] false 5
  exact ⟨h.2.1 _ _ (by decide) (List.Sublist.refl _), (h.2.2.2 rfl).2⟩

theorem tips_isEmpty_eq (b : Str) :
    (bulletTips b).isEmpty
      = !(hasWeakVerb b || !hasDigit b || tooShort b || hasPassive b) := by
  unfold bulletTips
  cases h1 : hasWeakVerb b <;> cases h2 : hasDigit b <;>
    cases h3 : tooShort b <;> cases h4 : hasPassive b <;> simp

/-- Claim C6: `analyze_bullets` produces an entry for a bullet exactly when at
least one of the four independent flags holds — weak-verb (a fixed weak-verb
phrase occurs case-insensitively as a substring), no-metric (no digit),
too-short (fewer than 5 whitespace-separated tokens), passive-voice (one of
the fixed passive patterns matches case-insensitively) — and a zero-flag
bullet produces no feedback entry.  "Helped the team" carries exactly the
weak-verb, no-metric and too-short flags; "Led a cross-functional redesign
that cut latency by 20%" carries zero flags and yields no entry. -/
theorem analyze_bullets_flags (bullets : List Str) :
    analyze_bullets bullets = bullets.filterMap (fun b =>
      if hasWeakVerb b || !hasDigit b || tooShort b || hasPassive b then
        some (b, pyStrip (bulletTips b))
      else none)
  ∧ (∀ b : Str, bulletTips b = [] ↔
      (hasWeakVerb b = false ∧ hasDigit b = true ∧ tooShort b = false
        ∧ hasPassive b = false))
  ∧ (hasWeakVerb "Helped the team".toList = true
      ∧ hasDigit "Helped the team".toList = false
      ∧ tooShort "Helped the team".toList = true
      ∧ hasPassive "Helped the team".toList = false)
  ∧ (hasWeakVerb "Led a cross-functional redesign that cut latency by 20%".toList = false
      ∧ hasDigit "Led a cross-functional redesign that cut latency by 20%".toList = true
      ∧ tooShort "Led a cross-functional redesign that cut latency by 20%".toList = false
      ∧ hasPassive "Led a cross-functional redesign that cut latency by 20%".toList = false)
  ∧ analyze_bullets
      ["Led a cross-functional redesign that cut latency by 20%".toList] = [] := by
  refine ⟨?_, ?_, ⟨by decide, by decide, by decide, by decide⟩,
    ⟨by decide, by decide, by decide, by decide⟩, by decide⟩
  · unfold analyze_bullets
    have hfun : (fun b : Str =>
        let s := bulletTips b
        if s.isEmpty then none else some (b, pyStrip s))
        = (fun b : Str =>
          if hasWeakVerb b || !hasDigit b || tooShort b || hasPassive b then
            some (b, pyStrip (bulletTips b))
          else none) := by
      funext b
      simp only [tips_isEmpty_eq b]
      cases h : (hasWeakVerb b || !hasDigit b || tooShort b || hasPassive b) <;>
        simp
    rw [hfun]
  · intro b
    rw [← List.isEmpty_iff, tips_isEmpty_eq b]
    cases h1 : hasWeakVerb b <;> cases h2 : hasDigit b <;>
      cases h3 : tooShort b <;> cases h4 : hasPassive b <;> simp

/-- Counterexample to claim C7 as stated: the substitutions are applied
sequentially, so the replacement for "assisted" ("supported delivery of")
is itself rewritten by the later "supported" → "enabled" rule, and the
"(expand with detail)" marker counts tokens after the "(add metric)" marker
has been appended, not after the substitutions alone — both in conflict
with the claim's one-to-one mapping and its token condition, witnessed by
the spec-modelled `rewrite_bullet_spec` at two concrete bullets. -/
theorem rewrite_bullet_claim_false :
    rewrite_bullet "assisted clients daily with care".toList
      = "enabled delivery of clients daily with care (add metric)".toList
  ∧ rewrite_bullet_spec "assisted clients daily with care".toList
      = "supported delivery of clients daily with care (add metric)".toList
  ∧ rewrite_bullet "assisted clients daily with care".toList
      ≠ rewrite_bullet_spec "assisted clients daily with care".toList
  ∧ rewrite_bullet "Helped the team".toList
      = "contributed to the team (add metric)".toList
  ∧ rewrite_bullet_spec "Helped the team".toList
      = "contributed to the team (add metric) (expand with detail)".toList
  ∧ rewrite_bullet "Helped the team".toList
      ≠ rewrite_bullet_spec "Helped the team".toList := by decide

theorem splitWSAux_append_space (w : Str) :
    ∀ (r cur : Str),
      splitWSAux cur (r ++ ' ' :: w) = splitWSAux cur r ++ splitWSAux [] w
  | [], cur => by
    by_cases h : cur.isEmpty <;> simp [splitWSAux, h, pyIsSpace]
  | c :: cs, cur => by
    by_cases h1 : pyIsSpace c
    · by_cases h2 : cur.isEmpty <;>
        simp [splitWSAux, h1, h2, splitWSAux_append_space w cs]
    · simp [splitWSAux, h1, splitWSAux_append_space w cs]

theorem splitWS_metric_count (r : Str) :
    (splitWS (r ++ " (add metric)".toList)).length = (splitWS r).length + 2 := by
  have h1 : " (add metric)".toList = ' ' :: "(add metric)".toList := rfl
  have h2 : (splitWSAux [] "(add metric)".toList).length = 2 := rfl
  rw [splitWS, h1, splitWSAux_append_space, List.length_append, h2, splitWS]

/-- Claim C7 (amended): `rewrite_bullet` applies the whole-word
case-insensitive substitutions sequentially in `REWRITE_MAP` order, so a
replacement introduced by one rule is rewritten again by a later rule
("assisted" ends as "enabled delivery of" and "involved in" as
"collaborated on in executing", not the mapping's images); it appends the
literal "(add metric)" marker iff no digit is present after the
substitutions; it appends the literal "(expand with detail)" marker iff
fewer than 5 tokens remain counting the possibly-appended metric marker
(which contributes 2 tokens) — not after the substitutions alone; the
result is stripped; the function is deterministic and pure. -/
theorem rewrite_bullet_amended (bullet : Str) :
    (hasDigit (applyRewrites bullet) = true →
      rewrite_bullet bullet = pyStrip
        (if (splitWS (applyRewrites bullet)).length < 5 then
          applyRewrites bullet ++ " (expand with detail)".toList
        else applyRewrites bullet))
  ∧ (hasDigit (applyRewrites bullet) = false →
      rewrite_bullet bullet = pyStrip
        (if (splitWS (applyRewrites bullet)).length + 2 < 5 then
          applyRewrites bullet ++ " (add metric)".toList
            ++ " (expand with detail)".toList
        else applyRewrites bullet ++ " (add metric)".toList))
  ∧ applyRewrites "assisted".toList = "enabled delivery of".toList
  ∧ applyRewrites "involved in".toList = "collaborated on in executing".toList := by
  refine ⟨?_, ?_, by decide, by decide⟩
  · intro h
    unfold rewrite_bullet
    simp only [h, if_true]
  · intro h
    unfold rewrite_bullet
    simp only [h, Bool.false_eq_true, if_false, splitWS_metric_count]

/-- Concrete instance of `rewrite_bullet_amended` at "Helped the team"
(no digit after substitution, 4 + 2 tokens after the metric marker, so no
detail marker). -/
theorem rewrite_bullet_amended_witness :
    hasDigit (applyRewrites "Helped the team".toList) = false
  ∧ rewrite_bullet "Helped the team".toList = pyStrip
      (if (splitWS (applyRewrites "Helped the team".toList)).length + 2 < 5 then
        applyRewrites "Helped the team".toList ++ " (add metric)".toList
          ++ " (expand with detail)".toList
      else applyRewrites "Helped the team".toList ++ " (add metric)".toList) :=
  ⟨by decide, (rewrite_bullet_amended "Helped the team".toList).2.1 (by decide)⟩

/-- Counterexample to claim C8 as stated: `generate_rewritten_bullets` does
not test the passive-voice condition, so a bullet whose only
`analyze_bullets` flag is passive-voice gets a feedback entry but is not
offered for rewrite. -/
theorem passive_only_not_offered :
    analyze_bullets ["Report was reviewed by 3 managers monthly".toList]
      = [("Report was reviewed by 3 managers monthly".toList,
          "🔁 Consider rephrasing into active voice.".toList)]
  ∧ generate_rewritten_bullets
      ["Report was reviewed by 3 managers monthly".toList] = [] := by decide

/-- Claim C8 (amended): the bullets offered for rewrite by
`generate_rewritten_bullets` are exactly the input bullets carrying a
weak-verb, no-metric, or too-short flag, each paired with its
`rewrite_bullet`; every offered bullet carries at least one
`analyze_bullets` flag (so no zero-flag bullet is offered), but a bullet
whose only flag is passive-voice is not offered. -/
theorem generate_rewritten_amended (bullets : List Str) :
    (∀ b r : Str, (b, r) ∈ generate_rewritten_bullets bullets →
      b ∈ bullets ∧ r = rewrite_bullet b
        ∧ (hasWeakVerb b = true ∨ hasDigit b = false ∨ tooShort b = true))
  ∧ (∀ b : Str, b ∈ bullets →
      (hasWeakVerb b = true ∨ hasDigit b = false ∨ tooShort b = true) →
      (b, rewrite_bullet b) ∈ generate_rewritten_bullets bullets)
  ∧ (∀ b r : Str, (b, r) ∈ generate_rewritten_bullets bullets →
      bulletTips b ≠ []) := by
  have hcond : ∀ b : Str,
      (hasWeakVerb b || !hasDigit b || tooShort b) = true ↔
        (hasWeakVerb b = true ∨ hasDigit b = false ∨ tooShort b = true) := by
    intro b
    simp [Bool.or_eq_true, Bool.not_eq_true', or_assoc]
  have hmem : ∀ b r : Str, (b, r) ∈ generate_rewritten_bullets bullets →
      b ∈ bullets ∧ r = rewrite_bullet b
        ∧ (hasWeakVerb b = true ∨ hasDigit b = false ∨ tooShort b = true) := by
    intro b r h
    simp only [generate_rewritten_bullets, List.mem_filterMap] at h
    obtain ⟨a, ha, heq⟩ := h
    by_cases hc : (hasWeakVerb a || !hasDigit a || tooShort a) = true
    · rw [if_pos hc] at heq
      obtain ⟨rfl, rfl⟩ := Prod.mk.injEq .. ▸ Option.some.injEq .. ▸ heq
      exact ⟨ha, rfl, (hcond a).mp hc⟩
    · rw [if_neg hc] at heq
      exact absurd heq (by simp)
  refine ⟨hmem, ?_, ?_⟩
  · intro b hb hflags
    simp only [generate_rewritten_bullets, List.mem_filterMap]
    exact ⟨b, hb, by rw [if_pos ((hcond b).mpr hflags)]⟩
  · intro b r h
    intro hempty
    have h5 := List.isEmpty_iff.mpr hempty
    rw [tips_isEmpty_eq b] at h5
    rcases (hmem b r h).2.2 with hf | hf | hf <;> simp [hf] at h5

/-- Concrete instance of `generate_rewritten_amended`: "Helped the team"
carries the weak-verb flag, is offered for rewrite, and has non-empty
`analyze_bullets` feedback. -/
theorem generate_rewritten_amended_witness :
    ("Helped the team".toList, rewrite_bullet "Helped the team".toList)
      ∈ generate_rewritten_bullets ["Helped the team".toList]
  ∧ bulletTips "Helped the team".toList ≠ [] := by
  have h := generate_rewritten_amended ["Helped the team".toList]
  have hm := h.2.1 "Helped the team".toList (by decide) (Or.inl (by decide))
  exact ⟨hm, h.2.2 _ _ hm⟩

/-- Claim C9: a file whose name ends in neither ".pdf" nor ".docx" yields
empty extracted text rather than an error, and every downstream stage run
on that empty text produces empty or zero-score results: no skills, no
bullets, no bullet feedback, and every ranked entry has `match_score = 0`
with no matched skills. -/
theorem unsupported_extension_degrades (name pdfText docxText : Str)
    (h1 : pyEndsWith name ".pdf".toList = false)
    (h2 : pyEndsWith name ".docx".toList = false) :
    extract_text name pdfText docxText = []
  ∧ extract_skills (extract_text name pdfText docxText) = []
  ∧ extract_bullet_points (extract_text name pdfText docxText) = []
  ∧ analyze_bullets (extract_bullet_points (extract_text name pdfText docxText)) = []
  ∧ ∀ (feed : List JobPosting) (pro : Bool) (n : Nat) (e : MatchResult),
      e ∈ get_top_matches_with_feedback
            (extract_skills (extract_text name pdfText docxText)) feed pro n →
      e.match_score = 0 ∧ e.matched_skills = [] := by
  have hext : extract_text name pdfText docxText = [] := by
    unfold extract_text
    rw [h1, h2]
    simp
  rw [hext]
  refine ⟨rfl, by decide, by decide, by decide, ?_⟩
  intro feed pro n e he
  rw [show extract_skills ([] : Str) = ([] : List Str) from rfl] at he
  obtain ⟨job, hj, rfl⟩ := mem_top_matches he
  exact mkResult_empty_score pro job

/-- Concrete instance of `unsupported_extension_degrades` at the file name
"resume.txt". -/
theorem unsupported_extension_degrades_witness :
    extract_text "resume.txt".toList "PDF CONTENT Python".toList
        "DOCX CONTENT SQL".toList = []
  ∧ extract_skills (extract_text "resume.txt".toList "PDF CONTENT Python".toList
        "DOCX CONTENT SQL".toList) = []
  ∧ analyze_bullets (extract_bullet_points (extract_text "resume.txt".toList
        "PDF CONTENT Python".toList "DOCX CONTENT SQL".toList)) = [] := by
  have h := unsupported_extension_degrades "resume.txt".toList
    "PDF CONTENT Python".toList "DOCX CONTENT SQL".toList (by decide) (by decide)
  exact ⟨h.1, h.2.1, h.2.2.2.1⟩
